import Mathlib

/-!
Shallow embedding of the ChatBot repository (files `app.py` and
`build_vector.py`).  Python strings are modelled as `List Char`; the regex
character classes `\w` and `\s` and `str.lower`/`str.strip` are modelled over
the ASCII range they are exercised on.  Distances returned by the FAISS
nearest-neighbour search are modelled as rationals, and every fallible
external call (sentence embedding, FAISS search, Gemini generation) is an
oracle returning `Except Unit _`, so that the `try/except` control flow of
the source can be stated exactly.
-/

namespace ChatBot

abbrev Text := List Char

/-- Coerce a Lean string literal to the `List Char` text model. -/
def lit (s : String) : Text := s.data

/-- The regex class `\w` (ASCII scope): alphanumeric or underscore. -/
def isWordChar (c : Char) : Bool := c.isAlphanum || c == '_'

/-- The regex class `\s` / characters removed by `str.strip`. -/
def isSpaceChar (c : Char) : Bool := c.isWhitespace

/-- Case-folding table used to model `str.lower` (ASCII scope). -/
def upperLowerTable : List (Char × Char) :=
  [('A','a'), ('B','b'), ('C','c'), ('D','d'), ('E','e'), ('F','f'),
   ('G','g'), ('H','h'), ('I','i'), ('J','j'), ('K','k'), ('L','l'),
   ('M','m'), ('N','n'), ('O','o'), ('P','p'), ('Q','q'), ('R','r'),
   ('S','s'), ('T','t'), ('U','u'), ('V','v'), ('W','w'), ('X','x'),
   ('Y','y'), ('Z','z')]

/-- `str.lower` on a single character (ASCII scope). -/
def pyLowerChar (c : Char) : Char :=
  match upperLowerTable.find? (fun p => p.1 == c) with
  | some p => p.2
  | none => c

/-- `str.lower` on a whole string. -/
def pyLower (t : Text) : Text := t.map pyLowerChar

/-- Remove trailing whitespace. -/
def dropEndSpaces (t : Text) : Text := (t.reverse.dropWhile isSpaceChar).reverse

/-- `str.strip`: remove leading and trailing whitespace. -/
def pyStrip (t : Text) : Text := dropEndSpaces (t.dropWhile isSpaceChar)

/-- The substitution `re.sub(r'[^\w\s]', '', text)`: keep only word
characters and whitespace. -/
def stripPunct (t : Text) : Text := t.filter (fun c => isWordChar c || isSpaceChar c)

/-- The substitution `re.sub(r'\s+', ' ', text)`: replace every maximal
whitespace run by a single space. -/
def collapseWs : Text → Text
  | [] => []
  | [c] => if isSpaceChar c then [' '] else [c]
  | c :: d :: cs =>
    if isSpaceChar c then
      (if isSpaceChar d then collapseWs (d :: cs) else ' ' :: collapseWs (d :: cs))
    else c :: collapseWs (d :: cs)

/-- One whole-word substitution rule `re.sub(r'\b(a1|...|an)\b', canon, t)`:
since every alternative consists solely of word characters, a match is
exactly a maximal word-character run equal to one of the alternatives. -/
def replTok (alts : List Text) (canon : Text) (t : Text) : Text :=
  if t ∈ alts then canon else t

/-- Worker for `foldWords`: `run` accumulates the current maximal word run. -/
def foldWordsGo (g : Text → Text) (run : Text) : Text → Text
  | [] => if run = [] then [] else g run
  | c :: cs =>
    if isWordChar c then foldWordsGo g (run ++ [c]) cs
    else (if run = [] then [] else g run) ++ c :: foldWordsGo g [] cs

/-- Apply `g` to every maximal word-character run of the text, leaving all
other characters in place.  This is the semantics of one
`re.sub(r'\b(...)\b', ...)` call with word-character alternatives. -/
def foldWords (g : Text → Text) (t : Text) : Text := foldWordsGo g [] t

/-- Worker for `wordRuns`. -/
def wordRunsGo (run : Text) : Text → List Text
  | [] => if run = [] then [] else [run]
  | c :: cs =>
    if isWordChar c then wordRunsGo (run ++ [c]) cs
    else (if run = [] then [] else [run]) ++ wordRunsGo [] cs

/-- The list of maximal word-character runs of a text. -/
def wordRuns (t : Text) : List Text := wordRunsGo [] t

/-- Join tokens with single spaces (the normal form produced by whitespace
collapsing plus stripping). -/
def renderToks : List Text → Text
  | [] => []
  | [t] => t
  | t :: ts => t ++ ' ' :: renderToks ts

/-- `p.isPrefixOf`-style check used by the substring test. -/
def startsWithT : Text → Text → Bool
  | [], _ => true
  | _ :: _, [] => false
  | p :: ps, c :: cs => p == c && startsWithT ps cs

/-- Python `pat in t` substring containment. -/
def hasSub (pat : Text) : Text → Bool
  | [] => pat == []
  | c :: cs => startsWithT pat (c :: cs) || hasSub pat cs

/-! Synonym tables, read off the regex alternations in the source. -/

def greetAlts : List Text :=
  [lit "hi", lit "hello", lit "hey", lit "hlw", lit "hii",
   lit "greeting", lit "greetings"]

def programsAlts : List Text :=
  [lit "course", lit "courses", lit "program", lit "programs",
   lit "degree", lit "degrees"]

def admissionAlts : List Text := [lit "admission", lit "apply", lit "application"]

def hostelServeAlts : List Text := [lit "hostel", lit "dorm", lit "stay"]

def hostelBuildAlts : List Text := [lit "hostel", lit "dorm", lit "accommodation"]

def placementAlts : List Text :=
  [lit "placement", lit "job", lit "jobs", lit "recruitment"]

def contactAlts : List Text :=
  [lit "contact", lit "phone", lit "email", lit "address"]

/-- `normalize_text` of `app.py` (the serve-side normalizer):
lower-case and strip, drop punctuation, fold the greeting / programs /
admission / hostel synonym rows, then collapse whitespace runs.  Note that
no final strip is performed. -/
def normalize_text_serve (text : Text) : Text :=
  collapseWs
    (foldWords (replTok hostelServeAlts (lit "hostel"))
      (foldWords (replTok admissionAlts (lit "admission"))
        (foldWords (replTok programsAlts (lit "programs"))
          (foldWords (replTok greetAlts (lit "greeting"))
            (stripPunct (pyStrip (pyLower text)))))))

/-- `normalize_text` of `build_vector.py` (the build-side normalizer) on a
string argument: lower-case (no initial strip), drop punctuation, fold the
programs / admission / hostel(accommodation) / placement / contact rows,
collapse whitespace and strip at the end. -/
def normalize_text_build (text : Text) : Text :=
  pyStrip (collapseWs
    (foldWords (replTok contactAlts (lit "contact"))
      (foldWords (replTok placementAlts (lit "placement"))
        (foldWords (replTok hostelBuildAlts (lit "hostel"))
          (foldWords (replTok admissionAlts (lit "admission"))
            (foldWords (replTok programsAlts (lit "programs"))
              (stripPunct (pyLower text))))))))

/-- A Python value passed to a normalizer: either a `str` or some
non-string value (for example the float NaN a pandas column may hold). -/
inductive PyVal where
  | str (s : Text)
  | nonStr
deriving DecidableEq

/-- The build-side normalizer as called on an arbitrary Python value:
`if not isinstance(text, str): return ""` guards non-strings, so the
function never raises. -/
def normalize_text_build_py : PyVal → Except Unit Text
  | .str s => .ok (normalize_text_build s)
  | .nonStr => .ok []

/-- The serve-side normalizer as called on an arbitrary Python value: it
has no isinstance guard, and `text.lower()` raises on a non-string. -/
def normalize_text_serve_py : PyVal → Except Unit Text
  | .str s => .ok (normalize_text_serve s)
  | .nonStr => .error ()

/-! ## Configuration constants shared by both scripts -/

def COLLEGE_NAME : Text := lit "Siliguri Institute of Technology"

def CONTACT_INFO : Text := lit "+91‑9876543210 | info@sittech.edu.in"

def WEBSITE : Text := lit "sittech.ac.in"

/-! ## Serve side: `get_knowledge_response` and `gemini_response` -/

/-- The three lists pickled into `faiss_store/data.pkl`, plus questions.
A loaded dict always has its four keys, hence is truthy; a failed load
leaves `resources['data'] = None`, modelled by `Option KData` below. -/
structure KData where
  questions : List Text
  answers : List Text
  departments : List Text
  keywords : List Text

/-- The cached resources dict of `app.py`.  The embedder is
`SentenceTransformer.encode` on a single normalized string; the index is
`faiss.Index.search` with `k = 1` returning the squared-L2 distance
`D[0][0]` and the position `I[0][0]`; both may raise, and the Gemini model
handle is the single-attempt outcome of `generate_content(...).text`. -/
structure Resources (V : Type) where
  index : Option (V → Except Unit (ℚ × Int))
  data : Option KData
  embedder : Option (Text → Except Unit V)
  gemini_model : Option (Text → Except Unit Text)

/-- `embedder.encode([norm])` followed by `index.search(vec, k=1)`, the
fallible part of the try block before the threshold test. -/
def searchStep {V : Type} (e : Text → Except Unit V)
    (ix : V → Except Unit (ℚ × Int)) (t : Text) : Except Unit (ℚ × Int) := do
  let v ← e t
  ix v

/-- Python list indexing `xs[i]`: negative indices count from the end, and
an out-of-range index raises (here: returns `.error ()`). -/
def pyListGet {α : Type} (xs : List α) (i : Int) : Except Unit α :=
  let j : Int := if i < 0 then i + xs.length else i
  match xs.get? j.toNat with
  | some a => if 0 ≤ j then .ok a else .error ()
  | none => .error ()

/-- The fixed greeting reply of the shortcut in `get_knowledge_response`. -/
def greetingReply : Text := lit "Hi! How can I help you today?"

/-- `get_knowledge_response(query, resources)` from `app.py`.  The order of
the source is kept: the `data` truthiness test comes first, then
normalization and the greeting substring shortcut, then the vector search
guarded by `embedder and index`, whose whole try block (encode, search,
threshold test, answer lookup) degrades to `None` on any exception. -/
def get_knowledge_response {V : Type} (query : Text) (resources : Resources V) :
    Option Text :=
  match resources.data with
  | none => none
  | some data =>
    let norm := normalize_text_serve query
    if hasSub (lit "greeting") norm then some greetingReply
    else
      match resources.embedder, resources.index with
      | some embedder, some index =>
        match searchStep embedder index norm with
        | .ok di =>
          if di.1 < (7 : ℚ) / 10 then
            match pyListGet data.answers di.2 with
            | .ok a => some a
            | .error _ => none
          else none
        | .error _ => none
      | _, _ => none

/-- The `generation_config` passed to Gemini. -/
structure GenerationConfig where
  max_output_tokens : Nat
  temperature : ℚ

/-- The prompt string built by `gemini_response`. -/
def buildPrompt (query : Text) : Text :=
  lit "Answer briefly as " ++ COLLEGE_NAME ++ lit " assistant: " ++ query ++
    lit " Contact: " ++ CONTACT_INFO ++ lit " | Website: " ++ WEBSITE

/-- `gemini_response(query, model)` from `app.py`.  A `None` model handle
returns the static string immediately; otherwise a single
`generate_content` attempt is made (its outcome is the oracle value), the
returned text is stripped and cut to 300 characters, and any exception
yields the (differently worded) static error fallback. -/
def gemini_response (query : Text)
    (model : Option (Text → GenerationConfig → Except Unit Text)) : Text :=
  match model with
  | none => lit "Please contact us: " ++ CONTACT_INFO
  | some m =>
    match m (buildPrompt query) ⟨150, 3 / 10⟩ with
    | .ok t => (pyStrip t).take 300
    | .error _ => lit "Please contact: " ++ CONTACT_INFO

/-! ## Build side: the main process of `build_vector.py` -/

/-- One row of the source table `college_knowledge.csv`.  A `none`
question models a NaN cell produced by pandas for a missing value. -/
structure SourceRow where
  question : Option Text
  answer : Text
  department : Text
  keywords : Text

/-- `df["question"].fillna("")`. -/
def fillna (q : Option Text) : Text := q.getD []

/-- A `faiss.IndexFlatL2`: dimension plus the stored vectors in insertion
order. -/
structure IndexFlatL2 (V : Type) where
  d : Nat
  vecs : List V

/-- `index.add(embeddings)`. -/
def IndexFlatL2.add {V : Type} (ix : IndexFlatL2 V) (vs : List V) : IndexFlatL2 V :=
  { ix with vecs := ix.vecs ++ vs }

/-- `index.ntotal`, the number of stored vectors. -/
def IndexFlatL2.ntotal {V : Type} (ix : IndexFlatL2 V) : Nat := ix.vecs.length

/-- The two artifacts written by the build: `faiss_store/index.faiss` and
the pickled dict `faiss_store/data.pkl`. -/
structure VectorStore (V : Type) where
  index : IndexFlatL2 V
  store : KData

/-- The main process of `build_vector.py` on a loaded dataframe: fill the
question column, normalize it, batch-encode (`enc` is the embedding model
on one normalized string), add all embeddings to a fresh flat L2 index of
dimension `dim`, and pickle the four parallel columns. -/
def build {V : Type} (enc : Text → V) (dim : Nat) (rows : List SourceRow) :
    VectorStore V :=
  let questionsFilled := rows.map (fun r => fillna r.question)
  let normalized := questionsFilled.map normalize_text_build
  let embeddings := normalized.map enc
  let index := (IndexFlatL2.mk dim []).add embeddings
  { index := index
    store :=
      { questions := questionsFilled
        answers := rows.map (fun r => r.answer)
        departments := rows.map (fun r => r.department)
        keywords := rows.map (fun r => r.keywords) } }

/-! ## Proof-layer predicates and concrete instances used by witnesses -/

/-- Every character of `t` is a word character. -/
abbrev AllWord (t : Text) : Prop := ∀ c ∈ t, isWordChar c = true

/-- No character of `t` is whitespace. -/
abbrev NoSpace (t : Text) : Prop := ∀ c ∈ t, isSpaceChar c = false

/-- Every character of `t` is a word character or whitespace (the state of
the text right after punctuation removal). -/
abbrev CharsWS (t : Text) : Prop := ∀ c ∈ t, isWordChar c = true ∨ isSpaceChar c = true

/-- Every character of `t` is fixed by lower-casing. -/
abbrev LowerFixed (t : Text) : Prop := ∀ c ∈ t, pyLowerChar c = c

/-- If `t` is nonempty, its head is not a word character. -/
def NonWordHead (t : Text) : Prop := ∀ c cs, t = c :: cs → isWordChar c = false

/-- `g` sends nonempty all-word runs to nonempty all-word runs (true of
every synonym substitution, whose canonical words are plain words). -/
def GoodRun (g : Text → Text) : Prop :=
  ∀ u, u ≠ [] → AllWord u → g u ≠ [] ∧ AllWord (g u)

/-- The per-token action of the build-side synonym chain: the five
`replTok` rules of `normalize_text_build` applied in source order to one
maximal word run. -/
def chainB (t : Text) : Text :=
  replTok contactAlts (lit "contact")
    (replTok placementAlts (lit "placement")
      (replTok hostelBuildAlts (lit "hostel")
        (replTok admissionAlts (lit "admission")
          (replTok programsAlts (lit "programs") t))))

/-- The canonical words the build-side chain can produce. -/
def canonsB : List Text :=
  [lit "programs", lit "admission", lit "hostel", lit "placement", lit "contact"]

/-- The per-token action of the serve-side synonym chain of
`normalize_text` in `app.py`. -/
def chainS (t : Text) : Text :=
  replTok hostelServeAlts (lit "hostel")
    (replTok admissionAlts (lit "admission")
      (replTok programsAlts (lit "programs")
        (replTok greetAlts (lit "greeting") t)))

/-- Embedder oracle that always succeeds (vectors are `Unit`). -/
def embU : Text → Except Unit Unit := fun _ => .ok ()

/-- Index oracle returning a fixed (distance, position) hit. -/
def searchHitU (d : ℚ) (i : Int) : Unit → Except Unit (ℚ × Int) :=
  fun _ => .ok (d, i)

/-- Index oracle whose search raises. -/
def searchFailU : Unit → Except Unit (ℚ × Int) := fun _ => .error ()

/-- Gemini oracle whose single attempt raises. -/
def genFail : Text → GenerationConfig → Except Unit Text := fun _ _ => .error ()

/-- A one-entry knowledge store. -/
def kdOne : KData :=
  { questions := [lit "placement statistics"]
    answers := [lit "80 percent placement rate"]
    departments := [lit "Placements"]
    keywords := [lit "stats"] }

/-- A loaded but contentless knowledge store (the pickled dict always has
its four keys, so it is truthy even with empty lists). -/
def kdEmpty : KData := ⟨[], [], [], []⟩

/-- A source row whose question cell is missing (NaN). -/
def rowNoQuestion : SourceRow :=
  ⟨none, lit "Please ask a question about our college", lit "General",
   lit "empty,greeting"⟩

/-! ## Character-level lemmas -/

theorem pyLowerChar_fix (c : Char) : pyLowerChar (pyLowerChar c) = pyLowerChar c := by
  cases h : upperLowerTable.find? (fun p => p.1 == c) with
  | none =>
    have hc : pyLowerChar c = c := by simp [pyLowerChar, h]
    rw [hc]
    exact hc
  | some p =>
    have hp : p ∈ upperLowerTable := List.mem_of_find?_eq_some h
    have hc : pyLowerChar c = p.2 := by simp [pyLowerChar, h]
    rw [hc]
    have hall : ∀ q ∈ upperLowerTable, pyLowerChar q.2 = q.2 := by decide
    exact hall p hp

theorem space_not_word {c : Char} (h : isSpaceChar c = true) : isWordChar c = false := by
  have hw : c = ' ' ∨ c = '\t' ∨ c = '\r' ∨ c = '\n' := by
    have : (c = ' ' || c = '\t' || c = '\r' || c = '\n') = true := h
    simpa [Bool.or_eq_true, decide_eq_true_eq, or_assoc] using this
  rcases hw with rfl | rfl | rfl | rfl <;> decide

theorem word_not_space {c : Char} (h : isWordChar c = true) : isSpaceChar c = false := by
  cases hs : isSpaceChar c with
  | false => rfl
  | true => exact absurd h (by simp [space_not_word hs])

theorem noSpace_of_allWord {t : Text} (h : AllWord t) : NoSpace t :=
  fun c hc => word_not_space (h c hc)

/-! ## `foldWords` and `wordRuns` equations -/

theorem foldWordsGo_acc (g : Text → Text) :
    ∀ (u : Text) (run cs : Text), AllWord u →
      foldWordsGo g run (u ++ cs) = foldWordsGo g (run ++ u) cs := by
  intro u
  induction u with
  | nil => intro run cs _; simp
  | cons a u ih =>
    intro run cs hall
    have ha : isWordChar a = true := hall a (by simp)
    have hu : AllWord u := fun c hc => hall c (by simp [hc])
    calc foldWordsGo g run (a :: (u ++ cs))
        = foldWordsGo g (run ++ [a]) (u ++ cs) := by simp [foldWordsGo, ha]
      _ = foldWordsGo g ((run ++ [a]) ++ u) cs := ih (run ++ [a]) cs hu
      _ = foldWordsGo g (run ++ (a :: u)) cs := by simp

theorem foldWords_nonword {g : Text → Text} {c : Char} (h : isWordChar c = false)
    (cs : Text) : foldWords g (c :: cs) = c :: foldWords g cs := by
  simp [foldWords, foldWordsGo, h]

theorem fw_nonWordHead {g : Text → Text} {rest : Text} (h : NonWordHead rest) :
    NonWordHead (foldWords g rest) := by
  intro c cs hc
  cases rest with
  | nil => simp [foldWords, foldWordsGo] at hc
  | cons e es =>
    have he : isWordChar e = false := h e es rfl
    rw [foldWords_nonword he] at hc
    cases hc
    exact he

theorem foldWords_word {g : Text → Text} {u rest : Text} (hne : u ≠ [])
    (hall : AllWord u) (hrest : NonWordHead rest) :
    foldWords g (u ++ rest) = g u ++ foldWords g rest := by
  have h1 : foldWords g (u ++ rest) = foldWordsGo g u rest := by
    have := foldWordsGo_acc g u [] rest hall
    simpa [foldWords] using this
  rw [h1]
  cases rest with
  | nil => simp [foldWordsGo, foldWords, hne]
  | cons e es =>
    have he : isWordChar e = false := hrest e es rfl
    simp [foldWordsGo, hne, he, foldWords]

theorem foldWords_single {g : Text → Text} {u : Text} (hne : u ≠ [])
    (hall : AllWord u) : foldWords g u = g u := by
  have := @foldWords_word g u [] hne hall (fun c cs h => by cases h)
  simpa [foldWords, foldWordsGo] using this

theorem wordRunsGo_acc :
    ∀ (u : Text) (run cs : Text), AllWord u →
      wordRunsGo run (u ++ cs) = wordRunsGo (run ++ u) cs := by
  intro u
  induction u with
  | nil => intro run cs _; simp
  | cons a u ih =>
    intro run cs hall
    have ha : isWordChar a = true := hall a (by simp)
    have hu : AllWord u := fun c hc => hall c (by simp [hc])
    calc wordRunsGo run (a :: (u ++ cs))
        = wordRunsGo (run ++ [a]) (u ++ cs) := by simp [wordRunsGo, ha]
      _ = wordRunsGo ((run ++ [a]) ++ u) cs := ih (run ++ [a]) cs hu
      _ = wordRunsGo (run ++ (a :: u)) cs := by simp

theorem wordRuns_nonword {c : Char} (h : isWordChar c = false) (cs : Text) :
    wordRuns (c :: cs) = wordRuns cs := by
  simp [wordRuns, wordRunsGo, h]

theorem wordRuns_word {u rest : Text} (hne : u ≠ []) (hall : AllWord u)
    (hrest : NonWordHead rest) :
    wordRuns (u ++ rest) = u :: wordRuns rest := by
  have h1 : wordRuns (u ++ rest) = wordRunsGo u rest := by
    have := wordRunsGo_acc u [] rest hall
    simpa [wordRuns] using this
  rw [h1]
  cases rest with
  | nil => simp [wordRunsGo, wordRuns, hne]
  | cons e es =>
    have he : isWordChar e = false := hrest e es rfl
    simp [wordRunsGo, hne, he, wordRuns]

theorem wordRunsGo_sound :
    ∀ (cs run : Text), AllWord run →
      ∀ t ∈ wordRunsGo run cs, t ≠ [] ∧ AllWord t ∧ ∀ c ∈ t, c ∈ run ∨ c ∈ cs := by
  intro cs
  induction cs with
  | nil =>
    intro run hrun t ht
    by_cases h : run = []
    · simp [wordRunsGo, h] at ht
    · simp [wordRunsGo, h] at ht
      subst ht
      exact ⟨h, hrun, fun c hc => Or.inl hc⟩
  | cons a as ih =>
    intro run hrun t ht
    by_cases ha : isWordChar a = true
    · rw [show wordRunsGo run (a :: as) = wordRunsGo (run ++ [a]) as by
        simp [wordRunsGo, ha]] at ht
      have hruna : AllWord (run ++ [a]) := by
        intro c hc
        rcases List.mem_append.mp hc with h | h
        · exact hrun c h
        · simp at h; subst h; exact ha
      obtain ⟨h1, h2, h3⟩ := ih (run ++ [a]) hruna t ht
      refine ⟨h1, h2, fun c hc => ?_⟩
      rcases h3 c hc with h | h
      · rcases List.mem_append.mp h with h | h
        · exact Or.inl h
        · simp at h; subst h; simp
      · simp [h]
    · have ha' : isWordChar a = false := by simpa using ha
      rw [show wordRunsGo run (a :: as) =
          (if run = [] then [] else [run]) ++ wordRunsGo [] as by
        simp [wordRunsGo, ha']] at ht
      rcases List.mem_append.mp ht with h | h
      · by_cases hr : run = []
        · simp [hr] at h
        · simp [hr] at h
          subst h
          exact ⟨hr, hrun, fun c hc => Or.inl hc⟩
      · obtain ⟨h1, h2, h3⟩ := ih [] (by intro c hc; cases hc) t h
        refine ⟨h1, h2, fun c hc => ?_⟩
        rcases h3 c hc with h | h
        · cases h
        · simp [h]

theorem wordRuns_sound {l : Text} :
    ∀ t ∈ wordRuns l, t ≠ [] ∧ AllWord t ∧ ∀ c ∈ t, c ∈ l := by
  intro t ht
  obtain ⟨h1, h2, h3⟩ := wordRunsGo_sound l [] (by intro c hc; cases hc) t ht
  refine ⟨h1, h2, fun c hc => ?_⟩
  rcases h3 c hc with h | h
  · cases h
  · exact h

theorem wordRunsGo_ne_nil : ∀ (cs run : Text), run ≠ [] → wordRunsGo run cs ≠ [] := by
  intro cs
  induction cs with
  | nil => intro run h; simp [wordRunsGo, h]
  | cons a as ih =>
    intro run h
    by_cases ha : isWordChar a = true
    · rw [show wordRunsGo run (a :: as) = wordRunsGo (run ++ [a]) as by
        simp [wordRunsGo, ha]]
      exact ih (run ++ [a]) (by simp)
    · have ha' : isWordChar a = false := by simpa using ha
      rw [show wordRunsGo run (a :: as) =
          (if run = [] then [] else [run]) ++ wordRunsGo [] as by
        simp [wordRunsGo, ha']]
      simp [h]

/-! ## `renderToks` lemmas -/

theorem renderToks_cons₂ {t : Text} {ts : List Text} (h : ts ≠ []) :
    renderToks (t :: ts) = t ++ ' ' :: renderToks ts := by
  cases ts with
  | nil => exact absurd rfl h
  | cons t2 ts2 => rfl

theorem renderToks_chars :
    ∀ (toks : List Text) (c : Char), c ∈ renderToks toks →
      (∃ t ∈ toks, c ∈ t) ∨ c = ' ' := by
  intro toks
  induction toks with
  | nil => intro c hc; cases hc
  | cons t ts ih =>
    intro c hc
    cases ts with
    | nil =>
      exact Or.inl ⟨t, by simp, hc⟩
    | cons t2 ts2 =>
      rw [renderToks_cons₂ (by simp)] at hc
      rcases List.mem_append.mp hc with h | h
      · exact Or.inl ⟨t, by simp, h⟩
      · rcases List.mem_cons.mp h with h | h
        · exact Or.inr h
        · rcases ih c h with ⟨u, hu, hcu⟩ | h
          · exact Or.inl ⟨u, by simp [hu], hcu⟩
          · exact Or.inr h

theorem renderToks_ne_nil {toks : List Text} (h : toks ≠ [])
    (hne : ∀ t ∈ toks, t ≠ []) : renderToks toks ≠ [] := by
  cases toks with
  | nil => exact absurd rfl h
  | cons t ts =>
    cases ts with
    | nil => exact hne t (by simp)
    | cons t2 ts2 =>
      rw [renderToks_cons₂ (by simp)]
      simp

theorem wordRuns_renderToks :
    ∀ (toks : List Text), (∀ t ∈ toks, t ≠ [] ∧ AllWord t) →
      wordRuns (renderToks toks) = toks := by
  intro toks
  induction toks with
  | nil => intro _; rfl
  | cons t ts ih =>
    intro hgood
    obtain ⟨htne, htw⟩ := hgood t (by simp)
    cases ts with
    | nil =>
      show wordRuns (renderToks [t]) = [t]
      have : renderToks [t] = t ++ [] := by simp [renderToks]
      rw [this, wordRuns_word htne htw (fun c cs h => by cases h)]
      rfl
    | cons t2 ts2 =>
      rw [renderToks_cons₂ (by simp)]
      rw [wordRuns_word htne htw (fun c cs h => by cases h; decide)]
      rw [wordRuns_nonword (by decide)]
      rw [ih (fun u hu => hgood u (by simp [hu]))]

/-! ## `collapseWs` lemmas -/

theorem collapseWs_nonspace {c : Char} (h : isSpaceChar c = false) (t : Text) :
    collapseWs (c :: t) = c :: collapseWs t := by
  cases t <;> simp [collapseWs, h]

theorem collapseWs_space :
    ∀ (t : Text) {c : Char}, isSpaceChar c = true →
      collapseWs (c :: t) = ' ' :: collapseWs (t.dropWhile isSpaceChar) := by
  intro t
  induction t with
  | nil => intro c h; simp [collapseWs, h]
  | cons d ds ih =>
    intro c h
    by_cases hd : isSpaceChar d = true
    · have h1 : collapseWs (c :: d :: ds) = collapseWs (d :: ds) := by
        simp [collapseWs, h, hd]
      rw [h1, ih hd]
      simp [List.dropWhile_cons, hd]
    · have hd' : isSpaceChar d = false := by simpa using hd
      have h1 : collapseWs (c :: d :: ds) = ' ' :: collapseWs (d :: ds) := by
        simp [collapseWs, h, hd']
      rw [h1]
      simp [List.dropWhile_cons, hd']

theorem collapseWs_nospace {t : Text} (h : NoSpace t) : collapseWs t = t := by
  induction t with
  | nil => rfl
  | cons c cs ih =>
    rw [collapseWs_nonspace (h c (by simp)), ih (fun x hx => h x (by simp [hx]))]

theorem collapseWs_append_nospace {u : Text} (h : NoSpace u) (x : Text) :
    collapseWs (u ++ x) = u ++ collapseWs x := by
  induction u with
  | nil => simp
  | cons c cs ih =>
    rw [List.cons_append, collapseWs_nonspace (h c (by simp)),
      ih (fun y hy => h y (by simp [hy]))]
    rfl

/-! ## strip lemmas -/

theorem dropWhile_all_false {p : Char → Bool} :
    ∀ {t : Text}, (∀ c ∈ t, p c = false) → t.dropWhile p = t := by
  intro t h
  cases t with
  | nil => rfl
  | cons c cs => simp [List.dropWhile_cons, h c (by simp)]

theorem dropEndSpaces_nospace_append {u : Text} (h : NoSpace u) (x : Text) :
    dropEndSpaces (u ++ x) = u ++ dropEndSpaces x := by
  unfold dropEndSpaces
  rw [List.reverse_append, List.dropWhile_append]
  by_cases hx : (x.reverse.dropWhile isSpaceChar).isEmpty = true
  · have hx' : x.reverse.dropWhile isSpaceChar = [] := by
      simpa [List.isEmpty_iff] using hx
    rw [if_pos hx, hx']
    rw [dropWhile_all_false (fun c hc => h c (by simpa using hc))]
    simp
  · rw [if_neg hx]
    simp

theorem dropEndSpaces_cons_of_ne {x : Text} (h : dropEndSpaces x ≠ []) (a : Char) :
    dropEndSpaces (a :: x) = a :: dropEndSpaces x := by
  have hx : x.reverse.dropWhile isSpaceChar ≠ [] := by
    intro hc
    exact h (by simp [dropEndSpaces, hc])
  unfold dropEndSpaces
  rw [show (a :: x).reverse = x.reverse ++ [a] by simp]
  rw [List.dropWhile_append]
  rw [if_neg (by simpa [List.isEmpty_iff] using hx)]
  simp

theorem pyStrip_space_cons {c : Char} (h : isSpaceChar c = true) (t : Text) :
    pyStrip (c :: t) = pyStrip t := by
  simp [pyStrip, List.dropWhile_cons, h]

theorem pyStrip_nospace_append {u : Text} (hne : u ≠ []) (h : NoSpace u) (x : Text) :
    pyStrip (u ++ x) = u ++ dropEndSpaces x := by
  have h1 : (u ++ x).dropWhile isSpaceChar = u ++ x := by
    cases u with
    | nil => exact absurd rfl hne
    | cons a as => simp [List.dropWhile_cons, h a (by simp)]
  rw [pyStrip, h1, dropEndSpaces_nospace_append h]

theorem pyStrip_nospace {t : Text} (h : NoSpace t) : pyStrip t = t := by
  cases t with
  | nil => rfl
  | cons a as =>
    have := @pyStrip_nospace_append (a :: as) (by simp) h []
    simpa [dropEndSpaces] using this

theorem pyStrip_head_nonspace {a : Char} (h : isSpaceChar a = false) (t : Text) :
    pyStrip (a :: t) = dropEndSpaces (a :: t) := by
  simp [pyStrip, List.dropWhile_cons, h]

/-! ## The whitespace-normal-form pipeline lemma -/

theorem head_dropWhile_false {p : Char → Bool} :
    ∀ (l : Text) {c : Char} {cs : Text}, l.dropWhile p = c :: cs → p c = false := by
  intro l
  induction l with
  | nil => intro c cs h; cases h
  | cons a as ih =>
    intro c cs h
    by_cases ha : p a = true
    · rw [List.dropWhile_cons, if_pos ha] at h
      exact ih h
    · have ha' : p a = false := by simpa using ha
      rw [List.dropWhile_cons, if_neg (by simp [ha'])] at h
      cases h
      exact ha'

theorem wordRuns_dropWhile_space :
    ∀ l : Text, wordRuns (l.dropWhile isSpaceChar) = wordRuns l := by
  intro l
  induction l with
  | nil => rfl
  | cons a as ih =>
    by_cases ha : isSpaceChar a = true
    · rw [List.dropWhile_cons, if_pos ha, ih, wordRuns_nonword (space_not_word ha)]
    · rw [List.dropWhile_cons, if_neg (by simpa using ha)]

theorem charsWS_sublist {l t : Text} (h : CharsWS l) (hs : t.Sublist l) : CharsWS t :=
  fun c hc => h c (hs.subset hc)

theorem strip_collapse_runs :
    ∀ (n : Nat) (l : Text), l.length ≤ n → CharsWS l →
      pyStrip (collapseWs l) = renderToks (wordRuns l) := by
  intro n
  induction n with
  | zero =>
    intro l hlen _
    have : l = [] := by
      cases l with
      | nil => rfl
      | cons a as => simp at hlen
    subst this
    rfl
  | succ n ih =>
    intro l hlen hws
    cases l with
    | nil => rfl
    | cons c cs =>
      by_cases hc : isSpaceChar c = true
      · rw [collapseWs_space cs hc, pyStrip_space_cons (by decide)]
        rw [wordRuns_nonword (space_not_word hc)]
        rw [← wordRuns_dropWhile_space cs]
        refine ih (cs.dropWhile isSpaceChar) ?_ ?_
        · have h1 : (cs.dropWhile isSpaceChar).length ≤ cs.length :=
            (List.dropWhile_sublist _).length_le
          have h2 : cs.length ≤ n := by simpa using hlen
          omega
        · exact charsWS_sublist hws ((List.dropWhile_sublist _).trans (by simp))
      · have hw : isWordChar c = true := by
          rcases hws c (by simp) with h | h
          · exact h
          · exact absurd h (by simpa using hc)
        set u := (c :: cs).takeWhile isWordChar with hu_def
        set rest := (c :: cs).dropWhile isWordChar with hrest_def
        have hsplit : u ++ rest = c :: cs := List.takeWhile_append_dropWhile _ _
        have hune : u ≠ [] := by
          rw [hu_def, List.takeWhile_cons_of_pos hw]
          simp
        have hu_all : AllWord u := fun x hx => List.mem_takeWhile_imp hx
        have hrest_hd : NonWordHead rest := fun a as h =>
          head_dropWhile_false (c :: cs) (hrest_def ▸ h)
        have hrest_len : rest.length ≤ cs.length := by
          rw [hrest_def, List.dropWhile_cons, if_pos hw]
          exact (List.dropWhile_sublist _).length_le
        have hnsu : NoSpace u := noSpace_of_allWord hu_all
        have hws_u : CharsWS u :=
          charsWS_sublist hws (hsplit ▸ (List.sublist_append_left u rest))
        have hws_rest : CharsWS rest :=
          charsWS_sublist hws (hsplit ▸ (List.sublist_append_right u rest))
        rw [← hsplit, collapseWs_append_nospace hnsu,
          pyStrip_nospace_append hune hnsu, wordRuns_word hune hu_all hrest_hd]
        cases hre : rest with
        | nil =>
          simp [collapseWs, dropEndSpaces, renderToks, wordRuns, wordRunsGo]
        | cons e es =>
          have he_word : isWordChar e = false := hrest_hd e es hre
          have he_space : isSpaceChar e = true := by
            rcases hws_rest e (by simp [hre]) with h | h
            · exact absurd h (by simp [he_word])
            · exact h
          rw [collapseWs_space es he_space]
          set R := es.dropWhile isSpaceChar with hR_def
          have hRlen : R.length ≤ n := by
            have h1 : R.length ≤ es.length := (List.dropWhile_sublist _).length_le
            have h2 : rest.length ≤ cs.length := hrest_len
            have h3 : cs.length ≤ n := by simpa using hlen
            rw [hre] at h2
            simp at h2
            omega
          have hws_R : CharsWS R := by
            refine charsWS_sublist hws_rest ?_
            rw [hre]
            exact (List.dropWhile_sublist _).trans (by simp)
          have hIH : pyStrip (collapseWs R) = renderToks (wordRuns R) :=
            ih R hRlen hws_R
          have hwrR : wordRuns rest = wordRuns R := by
            rw [hre, wordRuns_nonword he_word, hR_def, wordRuns_dropWhile_space]
          cases hRc : R with
          | nil =>
            have hwr0 : wordRuns (e :: es) = ([] : List Text) := by
              rw [← hre, hwrR, hRc]
              rfl
            rw [hwr0]
            have hde : dropEndSpaces (' ' :: collapseWs ([] : Text)) = [] := by decide
            rw [hde]
            simp [renderToks]
          | cons w ws =>
            rw [hRc] at hIH hws_R
            rw [hre, hRc] at hwrR
            have hdw : es.dropWhile isSpaceChar = w :: ws := by
              rw [← hR_def]; exact hRc
            have hns : isSpaceChar w = false := head_dropWhile_false es hdw
            have hw_word : isWordChar w = true := by
              rcases hws_R w (by simp) with h | h
              · exact h
              · exact absurd h (by simp [hns])
            have hcolR : collapseWs (w :: ws) = w :: collapseWs ws :=
              collapseWs_nonspace hns ws
            have hde_eq : dropEndSpaces (collapseWs (w :: ws)) =
                renderToks (wordRuns (w :: ws)) := by
              rw [hcolR, ← pyStrip_head_nonspace hns, ← hcolR, hIH]
            have hwrRne : wordRuns (w :: ws) ≠ [] := by
              show wordRunsGo [] (w :: ws) ≠ []
              rw [show wordRunsGo [] (w :: ws) = wordRunsGo [w] ws by
                simp [wordRunsGo, hw_word]]
              exact wordRunsGo_ne_nil ws [w] (by simp)
            have hrtne : renderToks (wordRuns (w :: ws)) ≠ [] :=
              renderToks_ne_nil hwrRne (fun t ht => (wordRuns_sound t ht).1)
            have hdeR_ne : dropEndSpaces (collapseWs (w :: ws)) ≠ [] := by
              rw [hde_eq]; exact hrtne
            rw [dropEndSpaces_cons_of_ne hdeR_ne, hde_eq, hwrR,
              renderToks_cons₂ hwrRne]

/-! ## `foldWords` acting on word runs -/

theorem wordRuns_foldWords_aux {g : Text → Text} (hg : GoodRun g) :
    ∀ (n : Nat) (l : Text), l.length ≤ n →
      wordRuns (foldWords g l) = (wordRuns l).map g := by
  intro n
  induction n with
  | zero =>
    intro l hlen
    have : l = [] := by
      cases l with
      | nil => rfl
      | cons a as => simp at hlen
    subst this
    rfl
  | succ n ih =>
    intro l hlen
    cases l with
    | nil => rfl
    | cons c cs =>
      by_cases hc : isWordChar c = true
      · set u := (c :: cs).takeWhile isWordChar with hu_def
        set rest := (c :: cs).dropWhile isWordChar with hrest_def
        have hsplit : u ++ rest = c :: cs := List.takeWhile_append_dropWhile _ _
        have hune : u ≠ [] := by
          rw [hu_def, List.takeWhile_cons_of_pos hc]
          simp
        have hu_all : AllWord u := fun x hx => List.mem_takeWhile_imp hx
        have hrest_hd : NonWordHead rest := fun a as h =>
          head_dropWhile_false (c :: cs) (hrest_def ▸ h)
        have hrest_len : rest.length ≤ n := by
          have h1 : rest.length ≤ cs.length := by
            rw [hrest_def, List.dropWhile_cons, if_pos hc]
            exact (List.dropWhile_sublist _).length_le
          have h2 : cs.length ≤ n := by simpa using hlen
          omega
        obtain ⟨hgne, hgaw⟩ := hg u hune hu_all
        rw [← hsplit, foldWords_word hune hu_all hrest_hd,
          wordRuns_word hgne hgaw (fw_nonWordHead hrest_hd),
          wordRuns_word hune hu_all hrest_hd,
          ih rest hrest_len]
        rfl
      · have hc' : isWordChar c = false := by simpa using hc
        rw [foldWords_nonword hc', wordRuns_nonword hc', wordRuns_nonword hc']
        exact ih cs (by simpa using Nat.le_of_succ_le_succ hlen)

theorem wordRuns_foldWords {g : Text → Text} (hg : GoodRun g) (l : Text) :
    wordRuns (foldWords g l) = (wordRuns l).map g :=
  wordRuns_foldWords_aux hg l.length l (le_refl _)

theorem fw_charsWS_aux {g : Text → Text} (hg : GoodRun g) :
    ∀ (n : Nat) (l : Text), l.length ≤ n → CharsWS l →
      CharsWS (foldWords g l) := by
  intro n
  induction n with
  | zero =>
    intro l hlen _
    have : l = [] := by
      cases l with
      | nil => rfl
      | cons a as => simp at hlen
    subst this
    intro c hc
    cases hc
  | succ n ih =>
    intro l hlen hws
    cases l with
    | nil => intro c hc; cases hc
    | cons c cs =>
      by_cases hc : isWordChar c = true
      · set u := (c :: cs).takeWhile isWordChar with hu_def
        set rest := (c :: cs).dropWhile isWordChar with hrest_def
        have hsplit : u ++ rest = c :: cs := List.takeWhile_append_dropWhile _ _
        have hune : u ≠ [] := by
          rw [hu_def, List.takeWhile_cons_of_pos hc]
          simp
        have hu_all : AllWord u := fun x hx => List.mem_takeWhile_imp hx
        have hrest_hd : NonWordHead rest := fun a as h =>
          head_dropWhile_false (c :: cs) (hrest_def ▸ h)
        have hrest_len : rest.length ≤ n := by
          have h1 : rest.length ≤ cs.length := by
            rw [hrest_def, List.dropWhile_cons, if_pos hc]
            exact (List.dropWhile_sublist _).length_le
          have h2 : cs.length ≤ n := by simpa using hlen
          omega
        have hws_rest : CharsWS rest :=
          charsWS_sublist hws (hsplit ▸ (List.sublist_append_right u rest))
        obtain ⟨_, hgaw⟩ := hg u hune hu_all
        rw [← hsplit, foldWords_word hune hu_all hrest_hd]
        intro x hx
        rcases List.mem_append.mp hx with h | h
        · exact Or.inl (hgaw x h)
        · exact ih rest hrest_len hws_rest x h
      · have hc' : isWordChar c = false := by simpa using hc
        rw [foldWords_nonword hc']
        intro x hx
        rcases List.mem_cons.mp hx with rfl | h
        · exact hws x (by simp)
        · exact ih cs (by simpa using Nat.le_of_succ_le_succ hlen)
            (fun y hy => hws y (by simp [hy])) x h

theorem fw_charsWS {g : Text → Text} (hg : GoodRun g) {l : Text} (h : CharsWS l) :
    CharsWS (foldWords g l) :=
  fw_charsWS_aux hg l.length l (le_refl _) h

/-! ## The synonym chains -/

theorem replTok_good {alts : List Text} {canon : Text} (h1 : canon ≠ [])
    (h2 : AllWord canon) : GoodRun (replTok alts canon) := by
  intro u hne hall
  unfold replTok
  by_cases h : u ∈ alts
  · rw [if_pos h]
    exact ⟨h1, h2⟩
  · rw [if_neg h]
    exact ⟨hne, hall⟩

theorem chainB_cases (t : Text) : chainB t = t ∨ chainB t ∈ canonsB := by
  by_cases h1 : t ∈ programsAlts
  · right
    simp only [chainB, replTok, if_pos h1]
    decide
  · by_cases h2 : t ∈ admissionAlts
    · right
      simp only [chainB, replTok, if_neg h1, if_pos h2]
      decide
    · by_cases h3 : t ∈ hostelBuildAlts
      · right
        simp only [chainB, replTok, if_neg h1, if_neg h2, if_pos h3]
        decide
      · by_cases h4 : t ∈ placementAlts
        · right
          simp only [chainB, replTok, if_neg h1, if_neg h2, if_neg h3, if_pos h4]
          decide
        · by_cases h5 : t ∈ contactAlts
          · right
            simp only [chainB, replTok, if_neg h1, if_neg h2, if_neg h3, if_neg h4,
              if_pos h5]
            decide
          · left
            simp only [chainB, replTok, if_neg h1, if_neg h2, if_neg h3, if_neg h4,
              if_neg h5]

theorem chainB_good : GoodRun chainB := by
  intro u hne hall
  rcases chainB_cases u with h | h
  · rw [h]; exact ⟨hne, hall⟩
  · have : ∀ x ∈ canonsB, x ≠ [] ∧ AllWord x := by decide
    exact this _ h

theorem chainB_idem (t : Text) : chainB (chainB t) = chainB t := by
  rcases chainB_cases t with h | h
  · rw [h]
    exact h
  · have : ∀ x ∈ canonsB, chainB x = x := by decide
    rw [this _ h]

/-! ## The build-side pipeline in normal form, and its idempotence -/

theorem map_fix {α : Type} (f : α → α) :
    ∀ (l : List α), (∀ a ∈ l, f a = a) → l.map f = l := by
  intro l
  induction l with
  | nil => intro _; rfl
  | cons a as ih =>
    intro h
    rw [List.map_cons, h a (by simp), ih (fun x hx => h x (by simp [hx]))]

theorem normalize_text_build_eq (s : Text) :
    normalize_text_build s =
      renderToks ((wordRuns (stripPunct (pyLower s))).map chainB) := by
  have hws2 : CharsWS (stripPunct (pyLower s)) := by
    intro c hc
    have := (List.mem_filter.mp hc).2
    simpa [Bool.or_eq_true] using this
  have g1 : GoodRun (replTok programsAlts (lit "programs")) :=
    replTok_good (by decide) (by decide)
  have g2 : GoodRun (replTok admissionAlts (lit "admission")) :=
    replTok_good (by decide) (by decide)
  have g3 : GoodRun (replTok hostelBuildAlts (lit "hostel")) :=
    replTok_good (by decide) (by decide)
  have g4 : GoodRun (replTok placementAlts (lit "placement")) :=
    replTok_good (by decide) (by decide)
  have g5 : GoodRun (replTok contactAlts (lit "contact")) :=
    replTok_good (by decide) (by decide)
  have hws7 : CharsWS
      (foldWords (replTok contactAlts (lit "contact"))
        (foldWords (replTok placementAlts (lit "placement"))
          (foldWords (replTok hostelBuildAlts (lit "hostel"))
            (foldWords (replTok admissionAlts (lit "admission"))
              (foldWords (replTok programsAlts (lit "programs"))
                (stripPunct (pyLower s))))))) :=
    fw_charsWS g5 (fw_charsWS g4 (fw_charsWS g3 (fw_charsWS g2 (fw_charsWS g1 hws2))))
  show pyStrip (collapseWs _) = _
  rw [strip_collapse_runs _ _ (le_refl _) hws7]
  rw [wordRuns_foldWords g5, wordRuns_foldWords g4, wordRuns_foldWords g3,
    wordRuns_foldWords g2, wordRuns_foldWords g1]
  simp only [List.map_map]
  exact congrArg renderToks (List.map_congr_left (fun a _ => rfl))

theorem buildToks_good (s : Text) :
    ∀ t ∈ (wordRuns (stripPunct (pyLower s))).map chainB,
      t ≠ [] ∧ AllWord t ∧ LowerFixed t ∧ chainB t = t := by
  intro t ht
  obtain ⟨u, hu, rfl⟩ := List.mem_map.mp ht
  obtain ⟨hne, haw, hchars⟩ := wordRuns_sound u hu
  obtain ⟨hgne, hgaw⟩ := chainB_good u hne haw
  refine ⟨hgne, hgaw, ?_, chainB_idem u⟩
  rcases chainB_cases u with h | h
  · rw [h]
    intro c hc
    have hc2 : c ∈ stripPunct (pyLower s) := hchars c hc
    have hc3 : c ∈ pyLower s := (List.mem_filter.mp hc2).1
    obtain ⟨c0, _, rfl⟩ := List.mem_map.mp hc3
    exact pyLowerChar_fix c0
  · have : ∀ x ∈ canonsB, LowerFixed x := by decide
    exact this _ h

/-! ## Serve-side single-token normalization (for the greeting shortcut) -/

theorem serve_norm_single {t : Text} (hne : t ≠ []) (haw : AllWord t)
    (hlf : LowerFixed t) : normalize_text_serve t = chainS t := by
  have hns : NoSpace t := noSpace_of_allWord haw
  have hg1 : GoodRun (replTok greetAlts (lit "greeting")) :=
    replTok_good (by decide) (by decide)
  have hg2 : GoodRun (replTok programsAlts (lit "programs")) :=
    replTok_good (by decide) (by decide)
  have hg3 : GoodRun (replTok admissionAlts (lit "admission")) :=
    replTok_good (by decide) (by decide)
  have hg4 : GoodRun (replTok hostelServeAlts (lit "hostel")) :=
    replTok_good (by decide) (by decide)
  obtain ⟨h1ne, h1aw⟩ := hg1 t hne haw
  obtain ⟨h2ne, h2aw⟩ := hg2 _ h1ne h1aw
  obtain ⟨h3ne, h3aw⟩ := hg3 _ h2ne h2aw
  obtain ⟨h4ne, h4aw⟩ := hg4 _ h3ne h3aw
  unfold normalize_text_serve
  rw [show pyLower t = t from map_fix _ _ hlf]
  rw [pyStrip_nospace hns]
  rw [show stripPunct t = t from
    List.filter_eq_self.mpr (fun c hc => by simp [haw c hc])]
  rw [foldWords_single hne haw, foldWords_single h1ne h1aw,
    foldWords_single h2ne h2aw, foldWords_single h3ne h3aw]
  rw [collapseWs_nospace (noSpace_of_allWord h4aw)]
  rfl

theorem chainS_greet {t : Text} (h : hasSub (lit "greeting") t = true) :
    hasSub (lit "greeting") (chainS t) = true := by
  by_cases h1 : t ∈ greetAlts
  · simp only [chainS, replTok, if_pos h1]
    decide
  · by_cases h2 : t ∈ programsAlts
    · have hall : ∀ a ∈ programsAlts, hasSub (lit "greeting") a = false := by decide
      rw [hall t h2] at h
      simp at h
    · by_cases h3 : t ∈ admissionAlts
      · have hall : ∀ a ∈ admissionAlts, hasSub (lit "greeting") a = false := by decide
        rw [hall t h3] at h
        simp at h
      · by_cases h4 : t ∈ hostelServeAlts
        · have hall : ∀ a ∈ hostelServeAlts, hasSub (lit "greeting") a = false := by
            decide
          rw [hall t h4] at h
          simp at h
        · simp only [chainS, replTok, if_neg h1, if_neg h2, if_neg h3, if_neg h4]
          exact h

/-! ## Python list indexing under valid bounds -/

theorem pyListGet_pos (xs : List Text) (i : Int) (h0 : 0 ≤ i)
    (hlt : i < (xs.length : Int)) :
    pyListGet xs i = .ok (xs.getD i.toNat []) := by
  have hneg : ¬ i < 0 := by omega
  have hn : i.toNat < xs.length := by omega
  simp only [pyListGet, if_neg hneg]
  rw [List.get?_eq_get hn, List.getD_eq_getElem xs [] hn]
  simp [h0, List.get_eq_getElem]

theorem half_lt_seven_tenths : (1/2 : ℚ) < 7/10 := by norm_num

/-! ## Claim theorems -/

/-- Claim C1: for every query, with the answer store loaded and the
greeting shortcut not firing, when embedder and index are available and
the search succeeds with (distance, position) and the position addresses
the answer store, the match is accepted iff the distance is strictly below
0.7, returning the answer at the matched position; a search error, a
missing embedder, a missing index, or a missing answer store all yield
no-match rather than an error. -/
theorem c1_retrieve_threshold {V : Type} (q : Text) (kd : KData)
    (e : Text → Except Unit V) (ix : V → Except Unit (ℚ × Int))
    (ogm : Option (Text → Except Unit Text)) (d : ℚ) (i : Int) :
    (hasSub (lit "greeting") (normalize_text_serve q) = false →
      (searchStep e ix (normalize_text_serve q) = .ok (d, i) →
        0 ≤ i → i < (kd.answers.length : Int) →
        get_knowledge_response q ⟨some ix, some kd, some e, ogm⟩ =
          (if d < (7 : ℚ) / 10 then some (kd.answers.getD i.toNat []) else none))
      ∧ (searchStep e ix (normalize_text_serve q) = .error () →
        get_knowledge_response q ⟨some ix, some kd, some e, ogm⟩ = none)
      ∧ get_knowledge_response q (⟨some ix, some kd, none, ogm⟩ : Resources V) = none
      ∧ get_knowledge_response q (⟨none, some kd, some e, ogm⟩ : Resources V) = none)
    ∧ get_knowledge_response q (⟨some ix, none, some e, ogm⟩ : Resources V) = none := by
  constructor
  · intro hg
    refine ⟨?_, ?_, ?_, ?_⟩
    · intro hok h0 hlt
      simp only [get_knowledge_response, hg, Bool.false_eq_true, if_false, hok]
      rw [pyListGet_pos kd.answers i h0 hlt]
    · intro herr
      simp [get_knowledge_response, hg, herr]
    · simp [get_knowledge_response, hg]
    · simp [get_knowledge_response, hg]
  · rfl

/-- Witness for C1 at a concrete non-greeting query, a search hit at
distance 1/2 < 0.7 and position 0 of a one-answer store. -/
theorem c1_witness :
    get_knowledge_response (lit "placement stats")
        (⟨some (searchHitU (1/2) 0), some kdOne, some embU, none⟩ : Resources Unit) =
      some (lit "80 percent placement rate") := by
  have h := ((@c1_retrieve_threshold Unit (lit "placement stats") kdOne embU
      (searchHitU (1/2) 0) none (1/2) 0).1 (by decide)).1 rfl (by decide) (by decide)
  rw [h, if_pos half_lt_seven_tenths]
  decide

/-- Claim C2 counterexample: on the greeting query "hello" with the
answer store missing (`data = None`), retrieve returns no-match, not the
fixed greeting text, because the data truthiness test precedes the
greeting shortcut. -/
theorem c2_counterexample :
    get_knowledge_response (lit "hello")
        (⟨some (searchHitU (1/100) 0), none, some embU, none⟩ : Resources Unit) ≠
      some greetingReply ∧
    get_knowledge_response (lit "hello")
        (⟨some (searchHitU (1/100) 0), none, some embU, none⟩ : Resources Unit) =
      none :=
  ⟨by decide, rfl⟩

/-- Claim C2 (amended): provided the answer store is present (a loaded
data dict is always truthy), every query whose normalized form contains
"greeting" returns the fixed greeting text, for every embedder, index and
answer-store contents — including an empty index and empty answers. -/
theorem c2_greeting_shortcut {V : Type} (q : Text) (kd : KData)
    (oe : Option (Text → Except Unit V))
    (oix : Option (V → Except Unit (ℚ × Int)))
    (ogm : Option (Text → Except Unit Text))
    (h : hasSub (lit "greeting") (normalize_text_serve q) = true) :
    get_knowledge_response q ⟨oix, some kd, oe, ogm⟩ = some greetingReply := by
  simp [get_knowledge_response, h]

/-- Witness for the amended C2 on "hello" with a present but contentless
store and no embedder or index. -/
theorem c2_witness :
    get_knowledge_response (lit "hello")
        (⟨none, some kdEmpty, none, none⟩ : Resources Unit) = some greetingReply :=
  @c2_greeting_shortcut Unit (lit "hello") kdEmpty none none none (by decide)

/-- Claim C3 counterexample: when the model call errors, the fallback
string is "Please contact: ..." which differs from the no-model string
"Please contact us: ...", so the two static fallbacks are not the same
string. -/
theorem c3_counterexample :
    gemini_response (lit "fees") (some genFail) ≠
      gemini_response (lit "fees") none := by
  decide

/-- Claim C3 (amended): when the single generative-model attempt errors,
respond returns the static error fallback "Please contact: " followed by
the contact info — a static contact-info string containing the same
contact information as the no-model fallback, but worded differently. -/
theorem c3_error_fallback (q : Text) (m : Text → GenerationConfig → Except Unit Text)
    (h : m (buildPrompt q) ⟨150, 3/10⟩ = .error ()) :
    gemini_response q (some m) = lit "Please contact: " ++ CONTACT_INFO ∧
      hasSub CONTACT_INFO (gemini_response q (some m)) = true := by
  have h1 : gemini_response q (some m) = lit "Please contact: " ++ CONTACT_INFO := by
    simp [gemini_response, h]
  refine ⟨h1, ?_⟩
  rw [h1]
  decide

/-- Witness for the amended C3 with a concretely erroring model. -/
theorem c3_witness :
    gemini_response (lit "fees") (some genFail) =
      lit "Please contact: " ++ CONTACT_INFO :=
  (c3_error_fallback (lit "fees") genFail rfl).1

/-- Claim C4 counterexample: the serve-side normalizer is not idempotent:
on "a ." punctuation stripping exposes a trailing space that the final
whitespace collapse keeps, and a second pass removes it. -/
theorem c4_counterexample :
    normalize_text_serve (normalize_text_serve (lit "a .")) ≠
      normalize_text_serve (lit "a .") := by
  decide

/-- Claim C4 (amended): the build-side normalizer is idempotent for every
input string (the serve-side one is not, as it can keep an edge space a
second pass removes). -/
theorem c4_build_normalize_idempotent (s : Text) :
    normalize_text_build (normalize_text_build s) = normalize_text_build s := by
  have hgood := buildToks_good s
  rw [normalize_text_build_eq s]
  rw [normalize_text_build_eq
    (renderToks ((wordRuns (stripPunct (pyLower s))).map chainB))]
  set toks := (wordRuns (stripPunct (pyLower s))).map chainB with htoks
  have hlf : ∀ c ∈ renderToks toks, pyLowerChar c = c := by
    intro c hc
    rcases renderToks_chars toks c hc with ⟨t, ht, hct⟩ | rfl
    · exact (hgood t ht).2.2.1 c hct
    · decide
  rw [show pyLower (renderToks toks) = renderToks toks from map_fix _ _ hlf]
  have hwsp : ∀ c ∈ renderToks toks, (isWordChar c || isSpaceChar c) = true := by
    intro c hc
    rcases renderToks_chars toks c hc with ⟨t, ht, hct⟩ | rfl
    · simp [(hgood t ht).2.1 c hct]
    · decide
  rw [show stripPunct (renderToks toks) = renderToks toks from
    List.filter_eq_self.mpr hwsp]
  rw [wordRuns_renderToks toks (fun t ht => ⟨(hgood t ht).1, (hgood t ht).2.1⟩)]
  rw [map_fix chainB toks (fun t ht => (hgood t ht).2.2.2)]

/-- Claim C5: the text returned by respond never exceeds 300 characters,
whatever the model handle and whatever its output. -/
theorem c5_respond_length_cap (q : Text)
    (m : Option (Text → GenerationConfig → Except Unit Text)) :
    (gemini_response q m).length ≤ 300 := by
  cases m with
  | none =>
    show (lit "Please contact us: " ++ CONTACT_INFO).length ≤ 300
    decide
  | some g =>
    cases h : g (buildPrompt q) ⟨150, 3/10⟩ with
    | error e =>
      simp only [gemini_response, h]
      decide
    | ok t =>
      simp only [gemini_response, h, List.length_take]
      exact le_trans (Nat.min_le_left _ _) (le_refl _)

/-- Claim C6: with no model handle, respond returns the fixed no-model
string, which contains the configured contact string; no oracle is
consulted (the result is the same constant for every query). -/
theorem c6_no_model_fallback (q : Text) :
    gemini_response q none = lit "Please contact us: " ++ CONTACT_INFO ∧
      hasSub CONTACT_INFO (gemini_response q none) = true := by
  refine ⟨rfl, ?_⟩
  show hasSub CONTACT_INFO (lit "Please contact us: " ++ CONTACT_INFO) = true
  decide

/-- Claim C7: after a build, the index holds exactly as many vectors as
the store holds answers (one per source row), every row occupies the index
slot of its position with the embedding of its normalized question, and a
missing or empty question normalizes to the empty string yet is still
embedded and indexed, never skipped. -/
theorem c7_build_alignment {V : Type} (enc : Text → V) (dim : Nat)
    (rows : List SourceRow) :
    (build enc dim rows).index.ntotal = (build enc dim rows).store.answers.length
    ∧ (build enc dim rows).index.ntotal = rows.length
    ∧ (∀ (i : Nat) (r : SourceRow), rows.get? i = some r →
        (build enc dim rows).index.vecs.get? i =
          some (enc (normalize_text_build (fillna r.question))))
    ∧ (∀ (i : Nat) (r : SourceRow), rows.get? i = some r →
        (r.question = none ∨ r.question = some []) →
        (build enc dim rows).index.vecs.get? i = some (enc [])) := by
  refine ⟨?_, ?_, ?_, ?_⟩
  · simp [build, IndexFlatL2.add, IndexFlatL2.ntotal]
  · simp [build, IndexFlatL2.add, IndexFlatL2.ntotal]
  · intro i r hr
    have hr2 : rows[i]? = some r := by
      rw [← List.get?_eq_getElem?]
      exact hr
    simp [build, IndexFlatL2.add, List.get?_eq_getElem?, List.getElem?_map, hr2]
  · intro i r hr hq
    have hr2 : rows[i]? = some r := by
      rw [← List.get?_eq_getElem?]
      exact hr
    have hfq : fillna r.question = [] := by
      rcases hq with h | h <;> simp [fillna, h]
    have hnb : normalize_text_build ([] : Text) = [] := rfl
    simp [build, IndexFlatL2.add, List.get?_eq_getElem?, List.getElem?_map, hr2,
      hfq, hnb]

/-- Witness for C7 on a one-row table whose question cell is missing. -/
theorem c7_witness :
    (build (fun t : Text => t.length) 384 [rowNoQuestion]).index.ntotal =
      (build (fun t : Text => t.length) 384 [rowNoQuestion]).store.answers.length
    ∧ (build (fun t : Text => t.length) 384 [rowNoQuestion]).index.vecs.get? 0 =
      some 0 := by
  refine ⟨(c7_build_alignment _ _ _).1, ?_⟩
  have h := (c7_build_alignment (fun t : Text => t.length) 384 [rowNoQuestion]).2.2.2
    0 rowNoQuestion rfl (Or.inl rfl)
  simpa using h

/-- Claim C8 counterexample: on "hi" the two normalizers disagree even
though neither of the two extra build-side rows (placement, contact)
applies to it — the build-side table is missing the greeting row. -/
theorem c8_counterexample :
    normalize_text_serve (lit "hi") ≠ normalize_text_build (lit "hi")
    ∧ replTok placementAlts (lit "placement") (lit "hi") = lit "hi"
    ∧ replTok contactAlts (lit "contact") (lit "hi") = lit "hi" := by
  decide

/-- Claim C8 (amended): the build-side table shares the programs and
admission rows with the serve side; its hostel row folds "accommodation"
where the serve side folds "stay"; it omits the greeting row entirely; and
it adds the placement and contact folds — so the two normalizers also
disagree on greeting-row words and on stay/accommodation, not only where
the two extra rows apply. -/
theorem c8_table_relation :
    (normalize_text_serve (lit "courses") = lit "programs"
      ∧ normalize_text_build (lit "courses") = lit "programs")
    ∧ (normalize_text_serve (lit "apply") = lit "admission"
      ∧ normalize_text_build (lit "apply") = lit "admission")
    ∧ (normalize_text_serve (lit "dorm") = lit "hostel"
      ∧ normalize_text_build (lit "dorm") = lit "hostel")
    ∧ (normalize_text_serve (lit "hello") = lit "greeting"
      ∧ normalize_text_build (lit "hello") = lit "hello")
    ∧ (normalize_text_serve (lit "stay") = lit "hostel"
      ∧ normalize_text_build (lit "stay") = lit "stay")
    ∧ (normalize_text_serve (lit "accommodation") = lit "accommodation"
      ∧ normalize_text_build (lit "accommodation") = lit "hostel")
    ∧ (normalize_text_serve (lit "jobs") = lit "jobs"
      ∧ normalize_text_build (lit "jobs") = lit "placement")
    ∧ (normalize_text_serve (lit "phone") = lit "phone"
      ∧ normalize_text_build (lit "phone") = lit "contact") := by
  decide

/-- Claim C9: both normalizers always return a (possibly empty) string on
every string input and never fail; in particular the build-time normalizer
accepts non-string input and yields the empty string rather than an
error. -/
theorem c9_normalize_total :
    (∀ v : PyVal, ∃ t : Text, normalize_text_build_py v = .ok t)
    ∧ normalize_text_build_py .nonStr = .ok []
    ∧ (∀ s : Text, normalize_text_serve_py (.str s) =
        .ok (normalize_text_serve s)) := by
  refine ⟨fun v => ?_, rfl, fun s => rfl⟩
  cases v with
  | str s => exact ⟨normalize_text_build s, rfl⟩
  | nonStr => exact ⟨[], rfl⟩

/-- Claim C10: the greeting shortcut fires on substring containment, not
whole-token matching: any all-word, lowercase query containing "greeting"
anywhere — including inside a longer word no synonym rule produced — gets
the fixed greeting reply, for every embedder and index, so the vector
search is skipped. -/
theorem c10_substring_shortcut {V : Type} (t : Text) (kd : KData)
    (oe : Option (Text → Except Unit V))
    (oix : Option (V → Except Unit (ℚ × Int)))
    (ogm : Option (Text → Except Unit Text))
    (haw : AllWord t) (hlf : LowerFixed t)
    (hsub : hasSub (lit "greeting") t = true) :
    get_knowledge_response t ⟨oix, some kd, oe, ogm⟩ = some greetingReply := by
  have hne : t ≠ [] := by
    rintro rfl
    rw [show hasSub (lit "greeting") [] = false from rfl] at hsub
    simp at hsub
  have hnorm : normalize_text_serve t = chainS t := serve_norm_single hne haw hlf
  have hsub2 : hasSub (lit "greeting") (normalize_text_serve t) = true := by
    rw [hnorm]
    exact chainS_greet hsub
  simp [get_knowledge_response, hsub2]

/-- Witness for C10 on "greetingsss", a single word no synonym rule
produces or rewrites, with a live embedder and a failing index present. -/
theorem c10_witness :
    get_knowledge_response (lit "greetingsss")
        (⟨some searchFailU, some kdOne, some embU, none⟩ : Resources Unit) =
      some greetingReply :=
  @c10_substring_shortcut Unit (lit "greetingsss") kdOne (some embU)
    (some searchFailU) none (by decide) (by decide) (by decide)

end ChatBot
